import Mathlib

/-!
Verification of the SnapDBJS storage core against its specification.

The repository contains two parallel implementations of the command surface:
the LSM-tree worker path (StorageEngine + Memtable + SSTable + WAL +
CompactionEngine) and the simplified path (SimpleStorage behind
SimpleSnapDB).  Both are embedded shallowly below.  All clock reads
(`Date.now()`) are made explicit `now : Int` parameters; JavaScript `Map`s
become insertion-ordered association lists with JS `Map` semantics
(`set` overwrites in place, `delete` removes); the JS distinction between
`undefined` and `null` is kept where the code relies on it.
-/

set_option autoImplicit false

namespace SnapDB

/-- A user value as stored by the engine: a string or a number.
JavaScript numbers that the code produces (INCR/DECR) are modelled as
integers. -/
inductive Val where
  | str (s : String)
  | num (n : Int)
  deriving DecidableEq, Repr

/-- JS truthiness of a user value (`""` and `0` are falsy). -/
def Val.truthy : Val → Bool
  | .str s => s ≠ ""
  | .num n => n ≠ 0

/-- A JS read result distinguishing `undefined`, `null` and a proper value.
`SSTable.get` returns `undefined` on a miss while `Memtable.get` returns
`null`, and `StorageEngine.get` compares against `null` only, so the
distinction is observable. -/
inductive JsVal where
  | undefv
  | nullv
  | val (v : Val)
  deriving DecidableEq, Repr

/-- StorageEntry from src/types/index.ts.  `value = none` models the JS
`null` tombstone marker (`value: V | null`); `ttl` is the absolute expiry
timestamp in ms (`ttl?: number`); times are in ms. -/
structure Entry where
  key : String
  value : Option Val
  timestamp : Int
  ttl : Option Int
  version : Int
  deriving DecidableEq, Repr

/-- The expiry test used throughout the source: `entry.ttl && entry.ttl < now`.
A stored `ttl` of `0` is falsy in JS, so such an entry never expires. -/
def Entry.isExpired (e : Entry) (now : Int) : Bool :=
  match e.ttl with
  | none => false
  | some t => t ≠ 0 && t < now

/-! ### JS `Map` model: insertion-ordered association list -/

/-- A JS `Map` keyed by strings: an association list in insertion order
with unique keys maintained by the operations. -/
abbrev JsMap (α : Type) : Type := List (String × α)

namespace JsMap

variable {α : Type}

/-- `Map.get`: first binding for the key. -/
def find (m : JsMap α) (k : String) : Option α :=
  match m with
  | [] => none
  | (k', v) :: rest => if k' = k then some v else find rest k

/-- `Map.set`: overwrite in place if the key is present, else append. -/
def setk (m : JsMap α) (k : String) (v : α) : JsMap α :=
  match m with
  | [] => [(k, v)]
  | (k', v') :: rest => if k' = k then (k, v) :: rest else (k', v') :: setk rest k v

/-- `Map.delete`: remove the binding, returning whether it existed. -/
def del (m : JsMap α) (k : String) : Bool × JsMap α :=
  match m with
  | [] => (false, [])
  | (k', v') :: rest =>
    if k' = k then (true, rest)
    else
      let r := del rest k
      (r.1, (k', v') :: r.2)

/-- The entries of the map in iteration (= insertion) order. -/
def entriesOf (m : JsMap α) : List (String × α) := m

/-- Number of bindings (`Map.size`). -/
def size (m : JsMap α) : Nat := m.length


end JsMap

/-! ### Glob pattern matching

`Memtable.patternToRegex` (and the identical `SSTable.patternToRegex`)
escapes every regex metacharacter, replaces `*` by `.*` and `?` by `.`,
and anchors with `^...$`.  After that transformation every character of
the pattern other than `*` and `?` is matched literally, so the produced
regex denotes exactly the glob language compiled below.  `SimpleStorage`
builds its regex without escaping and without anchors; its denotation is
modelled separately. -/

inductive GlobTok where
  | star
  | anyc
  | lit (c : Char)
  deriving DecidableEq, Repr

/-- Tokens of the anchored, escaped regex built by `patternToRegex`:
`*` becomes `.*`, `?` becomes `.`, everything else is literal. -/
def compileAnchored (p : String) : List GlobTok :=
  p.toList.map fun c => if c = '*' then .star else if c = '?' then .anyc else .lit c

/-- Matching of `.*` followed by a continuation: the continuation must
accept some suffix of the string. -/
def globMatchStar (f : List Char → Bool) : List Char → Bool
  | [] => f []
  | c :: s' => f (c :: s') || globMatchStar f s'

/-- Matching of a token list against the whole string, i.e. the language
of the anchored regex. -/
def globMatch : List GlobTok → List Char → Bool
  | [], s => s.isEmpty
  | .star :: ps, s => globMatchStar (globMatch ps) s
  | .anyc :: ps, s =>
    match s with
    | [] => false
    | _ :: s' => globMatch ps s'
  | .lit c :: ps, s =>
    match s with
    | [] => false
    | c' :: s' => c = c' && globMatch ps s'

/-- The test performed by the regex of `Memtable.patternToRegex`. -/
def anchoredGlobTest (p k : String) : Bool :=
  globMatch (compileAnchored p) k.toList

/-- Matching of a token list against some prefix of the string. -/
def globMatchInit : List GlobTok → List Char → Bool
  | [], _ => true
  | .star :: ps, s => globMatchStar (globMatchInit ps) s
  | .anyc :: ps, s =>
    match s with
    | [] => false
    | _ :: s' => globMatchInit ps s'
  | .lit c :: ps, s =>
    match s with
    | [] => false
    | c' :: s' => c = c' && globMatchInit ps s'

/-- Tokens of the unescaped, unanchored regex built inline by
`SimpleStorage.keys` (`pattern.replace * -> .*, ? -> .` and nothing
else).  An unescaped `.` in the pattern is the regex wildcard.  This
model covers patterns containing no further regex metacharacters, which
is the case everywhere it is applied below. -/
def compileSimple (p : String) : List GlobTok :=
  p.toList.map fun c =>
    if c = '*' then .star else if c = '?' then .anyc else if c = '.' then .anyc else .lit c

/-- The test performed by an unanchored regex: some substring matches,
i.e. the tokens match a prefix of some suffix. -/
def unanchoredGlobTest (p k : String) : Bool :=
  (k.toList.tails).any fun s => globMatchInit (compileSimple p) s

/-! ### SimpleStorage (src/simple-storage/SimpleStorage.ts)

The simplified in-memory store behind `SimpleSnapDB`.  It keeps entries
in `data` and absolute expiry times in a second map `ttlData`.  Methods
that observe an expired key delete it lazily; every method below returns
the possibly-updated state. -/

/-- Absolute expiry from a supplied relative ttl: the source computes
`ttl ? Date.now() + ttl : undefined`, so a supplied ttl of `0` is falsy
and yields no expiry. -/
def jsAbsTtl (ttl : Option Int) (now : Int) : Option Int :=
  match ttl with
  | some t => if t ≠ 0 then some (now + t) else none
  | none => none

structure SimpleState where
  data : JsMap Entry
  ttlData : JsMap Int
  deriving DecidableEq, Repr

def SimpleState.empty : SimpleState := ⟨[], []⟩

/-- SimpleStorage.set: overwrites the entry, bumps the per-key version,
and records `now + ttl` in `ttlData` only when `ttl` is truthy. -/
def simpleSet (st : SimpleState) (key : String) (value : Val) (ttl : Option Int)
    (now : Int) : SimpleState :=
  let prevVersion := match st.data.find key with
    | some e => e.version
    | none => 0
  let entry : Entry :=
    { key := key, value := some value, timestamp := now,
      ttl := jsAbsTtl ttl now, version := prevVersion + 1 }
  { data := st.data.setk key entry
    ttlData :=
      match ttl with
      | some t => if t ≠ 0 then st.ttlData.setk key (now + t) else st.ttlData
      | none => st.ttlData }

/-- SimpleStorage.get: checks `ttlData` first and deletes an expired key
from both maps; otherwise returns `entry?.value ?? null` (`none` for a
missing key). -/
def simpleGet (st : SimpleState) (key : String) (now : Int) :
    Option Val × SimpleState :=
  match st.ttlData.find key with
  | some expiry =>
    if now > expiry then
      (none, { data := (st.data.del key).2, ttlData := (st.ttlData.del key).2 })
    else
      ((st.data.find key).bind Entry.value, st)
  | none => ((st.data.find key).bind Entry.value, st)

/-- SimpleStorage.del: removes the key from both maps, returning whether
the data map had it.  No tombstone is involved in this implementation. -/
def simpleDel (st : SimpleState) (key : String) : Bool × SimpleState :=
  let r := st.data.del key
  (r.1, { data := r.2, ttlData := (st.ttlData.del key).2 })

/-- SimpleStorage.expire: no positivity check at this layer; records the
new expiry iff the key is in `data`. -/
def simpleExpire (st : SimpleState) (key : String) (ttl : Int) (now : Int) :
    Bool × SimpleState :=
  match st.data.find key with
  | none => (false, st)
  | some _ => (true, { st with ttlData := st.ttlData.setk key (now + ttl) })

/-- Ceiling division by 1000 as performed by `Math.ceil(remaining / 1000)`;
the call site only reaches it with `remaining > 0`, where this agrees. -/
def jsCeilDiv1000 (r : Int) : Int := ((r.toNat + 999) / 1000 : Nat)

/-- SimpleStorage.ttl: `-2` when the key is missing from `data` or its
recorded expiry has passed (the key is then deleted), `-1` when there is
no recorded expiry, else the remaining whole seconds rounded up. -/
def simpleTtl (st : SimpleState) (key : String) (now : Int) : Int × SimpleState :=
  match st.data.find key with
  | none => (-2, st)
  | some _ =>
    match st.ttlData.find key with
    | none => (-1, st)
    | some expiry =>
      let remaining := expiry - now
      if remaining ≤ 0 then
        (-2, { data := (st.data.del key).2, ttlData := (st.ttlData.del key).2 })
      else
        (jsCeilDiv1000 remaining, st)

/-- One step of the `SimpleStorage.keys` loop over the entries of `data`:
expired keys are deleted from both maps and skipped, surviving keys are
tested against the unanchored, unescaped regex. -/
def simpleKeysAux (toks : Option String) (now : Int) :
    List (String × Entry) → JsMap Int → List String × JsMap Entry × JsMap Int
  | [], ttlData => ([], [], ttlData)
  | (k, e) :: rest, ttlData =>
    let expired : Bool := match ttlData.find k with
      | some expiry => decide (now > expiry)
      | none => false
    if expired then
      simpleKeysAux toks now rest (ttlData.del k).2
    else
      let r := simpleKeysAux toks now rest ttlData
      let keep := match toks with
        | none => true
        | some p => unanchoredGlobTest p k
      (if keep then e.key :: r.1 else r.1, (k, e) :: r.2.1, r.2.2)

/-- SimpleStorage.keys: note the matcher is built from the raw pattern
with only `*` and `?` rewritten, with no escaping and no `^...$` anchors. -/
def simpleKeys (st : SimpleState) (pattern : Option String) (now : Int) :
    List String × SimpleState :=
  let r := simpleKeysAux pattern now st.data.entriesOf st.ttlData
  (r.1, { data := r.2.1, ttlData := r.2.2 })

/-! ### SimpleSnapDB client (src/client/SimpleSnapDB.ts)

Only `expire` validates its arguments (`ttl <= 0` throws a
`ValidationError` before the storage is consulted); `set` forwards any
supplied ttl to the storage untouched. -/

inductive SnapErr where
  | validationError (msg : String)
  deriving DecidableEq, Repr

/-- SimpleSnapDB.set: no validation of key, value or ttl. -/
def snapSet (st : SimpleState) (key : String) (value : Val) (ttl : Option Int)
    (now : Int) : Except SnapErr SimpleState :=
  .ok (simpleSet st key value ttl now)

/-- SimpleSnapDB.expire: rejects a non-positive ttl before touching the
storage. -/
def snapExpire (st : SimpleState) (key : String) (ttl : Int) (now : Int) :
    Except SnapErr (Bool × SimpleState) :=
  if ttl ≤ 0 then .error (.validationError "TTL must be positive")
  else .ok (simpleExpire st key ttl now)

def exceptIsOk {ε α : Type} : Except ε α → Bool
  | .ok _ => true
  | .error _ => false

/-! ### Bloom filter (src/worker/storage/BloomFilter.ts)

The bit array is a `Uint8Array` of `ceil(size / 8)` bytes addressed by
`byteIndex = floor(index / 8)`, `bitIndex = index % 8`; since
`index = 8 * byteIndex + bitIndex` this packing is a bijection onto bit
positions `0 ≤ index < 8 * ceil(size / 8)`, and for `size > 0` every
probed `index = hash % size` is in range, so the array is modelled as a
total function on positions.  (For `size = 0` the JS code indexes with
`NaN` and drops all writes; all filters the repository builds have
`size = 10 * n > 0`, and the theorems below assume `0 < size`.) -/

/-- Wrap to a signed 32-bit integer, as `hash & hash` (ToInt32) does. -/
def toInt32 (n : Int) : Int := (n + 2 ^ 31) % 2 ^ 32 - 2 ^ 31

/-- One step of the rolling hash:
`hash = ((hash << 5) - hash) + charCode; hash = hash & hash`. -/
def jsHashStep (h : Int) (c : Char) : Int :=
  toInt32 (toInt32 (h * 32) - h + c.toNat)

/-- The polynomial rolling hash over the characters of the key, then
`Math.abs`. -/
def jsHashAbs (s : String) : Nat :=
  (s.toList.foldl jsHashStep 0).natAbs

/-- The probe hash values `Math.abs(hash1 + i * hash2)` for
`i in [0, numHashes)`; both base hashes are already non-negative. -/
def getHashes (numHashes : Nat) (key : String) : List Nat :=
  let hash1 := jsHashAbs key
  let hash2 := jsHashAbs (key ++ "salt")
  (List.range numHashes).map fun i => hash1 + i * hash2

structure BloomFilter where
  size : Nat
  numHashes : Nat
  bits : Nat → Bool

/-- A fresh filter with all bits clear. -/
def BloomFilter.new (size numHashes : Nat) : BloomFilter :=
  ⟨size, numHashes, fun _ => false⟩

def setBit (bits : Nat → Bool) (i : Nat) : Nat → Bool :=
  fun j => if j = i then true else bits j

/-- BloomFilter.add: set the bit at `hash % size` for every probe hash. -/
def BloomFilter.add (f : BloomFilter) (key : String) : BloomFilter :=
  { f with
    bits := (getHashes f.numHashes key).foldl (fun b h => setBit b (h % f.size)) f.bits }

/-- BloomFilter.contains: true iff every probed bit is set. -/
def BloomFilter.contains (f : BloomFilter) (key : String) : Bool :=
  (getHashes f.numHashes key).all fun h => f.bits (h % f.size)

/-! ### Memtable (src/worker/storage/Memtable.ts)

Entry sizes follow `calculateSize`, the UTF-8 byte length of the JSON
serialization; strings are modelled without escape-needing characters
(two quote bytes) and numbers by their decimal form. -/

/-- Byte length of `JSON.stringify` for the modelled values. -/
def jsonByteLength : Option Val → Int
  | some (.str s) => s.utf8ByteSize + 2
  | some (.num n) => (toString n).length
  | none => 4

/-- Memtable.calculateEntrySize: key + value + 8 (timestamp)
+ 8 if a ttl is present + 4 (version). -/
def entrySize (e : Entry) : Int :=
  jsonByteLength (some (.str e.key)) + jsonByteLength e.value + 8 +
    (match e.ttl with | some _ => 8 | none => 0) + 4

structure Memtable where
  data : JsMap Entry
  sizeBytes : Int
  maxSizeBytes : Int
  deriving DecidableEq, Repr

/-- A fresh memtable; `maxSizeBytes = maxSizeMB * 1024 * 1024`. -/
def Memtable.new (maxSizeMB : Int) : Memtable :=
  ⟨[], 0, maxSizeMB * 1024 * 1024⟩

/-- Memtable.set: subtract the superseded entry's cost, store the new
entry with `version = (existing?.version || 0) + 1`. -/
def Memtable.set (m : Memtable) (key : String) (value : Option Val)
    (ttl : Option Int) (now : Int) : Memtable :=
  let existing := m.data.find key
  let size1 := match existing with
    | some e => m.sizeBytes - entrySize e
    | none => m.sizeBytes
  let entry : Entry :=
    { key := key, value := value, timestamp := now, ttl := jsAbsTtl ttl now,
      version := (match existing with | some e => e.version | none => 0) + 1 }
  { m with data := m.data.setk key entry, sizeBytes := size1 + entrySize entry }

/-- Memtable.get: lazily removes an expired entry; returns `entry.value`
(which is `null` both for a miss and for a tombstone value). -/
def Memtable.get (m : Memtable) (key : String) (now : Int) :
    Option Val × Memtable :=
  match m.data.find key with
  | none => (none, m)
  | some e =>
    if e.isExpired now then
      (none, { m with data := (m.data.del key).2,
                      sizeBytes := m.sizeBytes - entrySize e })
    else (e.value, m)

/-- Memtable.delete: physically removes the entry (writes NO tombstone)
and returns whether an entry — live, expired or tombstoned — was there. -/
def Memtable.delete (m : Memtable) (key : String) : Bool × Memtable :=
  match m.data.find key with
  | some e =>
    (true, { m with data := (m.data.del key).2,
                    sizeBytes := m.sizeBytes - entrySize e })
  | none => (false, m)

/-- Memtable.keys: skips expired entries and tombstones, then filters by
the anchored escaped regex of `patternToRegex`. -/
def Memtable.keys (m : Memtable) (pattern : Option String) (now : Int) :
    List String :=
  m.data.entriesOf.filterMap fun p =>
    if p.2.isExpired now then none
    else if p.2.value.isNone then none
    else
      match pattern with
      | none => some p.2.key
      | some pat => if anchoredGlobTest pat p.2.key then some p.2.key else none

/-- Memtable.clear. -/
def Memtable.clear (m : Memtable) : Memtable :=
  { m with data := [], sizeBytes := 0 }

/-- Memtable.getAllEntries: all non-expired entries (tombstones
included), sorted ascending by key. -/
def Memtable.getAllEntries (m : Memtable) (now : Int) : List Entry :=
  List.insertionSort (fun a b => a.key ≤ b.key)
    (m.data.entriesOf.filterMap fun p =>
      if p.2.isExpired now then none else some p.2)

/-- Memtable.shouldFlush, called `isFull` by the engine. -/
def Memtable.isFull (m : Memtable) : Bool :=
  m.sizeBytes ≥ m.maxSizeBytes

/-- Modelled from the spec: `Memtable.exists`, called by
`StorageEngine.exists`, has no definition under src/.  Per §4.6
`EXISTS` behaves as `GET ≠ absent`, and the public engine treats
tombstoned and expired entries as absent. -/
def Memtable.existsLive (m : Memtable) (key : String) (now : Int) : Bool :=
  match m.data.find key with
  | some e => !e.isExpired now && e.value.isSome
  | none => false

/-- Modelled from the spec: `Memtable.ttl`, called by
`StorageEngine.ttl`, has no definition under src/.  Per §4.1
`ttl(key) -> remaining_seconds | -1 | -2`: `-2` absent (or expired),
`-1` present without expiry, else `ceil((expires_at - now) / 1000)`. -/
def Memtable.ttlOf (m : Memtable) (key : String) (now : Int) : Int :=
  match m.data.find key with
  | none => -2
  | some e =>
    if e.isExpired now then -2
    else
      match e.ttl with
      | none => -1
      | some expiresAt => jsCeilDiv1000 (expiresAt - now)

/-- Modelled from the spec: `Memtable.expire`, called by
`StorageEngine.expire`, has no definition under src/.  Per §4.1
`expire(key, ttl_ms) -> bool`: if a live entry exists, updates its
`expires_at` to `now + ttl_ms`; returns whether it did. -/
def Memtable.expire (m : Memtable) (key : String) (ttl : Int) (now : Int) :
    Bool × Memtable :=
  match m.data.find key with
  | some e =>
    if e.isExpired now || e.value.isNone then (false, m)
    else (true, { m with data := m.data.setk key { e with ttl := some (now + ttl) } })
  | none => (false, m)

/-! ### SSTable (src/worker/storage/SSTable.ts)

The serializer applied to keys before bloom insertion and lookup is the
same function on both sides, so it is modelled as the identity on the
string form of the key. -/

structure SSTable where
  level : Nat
  entries : List Entry
  bloom : Option BloomFilter
  createdAt : Int

/-- The SSTable constructor: stores the entries (already sorted by the
caller) and builds a bloom filter of `10` bits per key with 3 hashes
when enabled and the table is non-empty. -/
def SSTable.build (level : Nat) (entries : List Entry) (enableBloom : Bool)
    (now : Int) : SSTable :=
  let bloom :=
    if enableBloom && entries.length > 0 then
      some (entries.foldl (fun f e => f.add e.key) (BloomFilter.new (entries.length * 10) 3))
    else none
  ⟨level, entries, bloom, now⟩

/-- The binary-search loop of `SSTable.binarySearch` over `[left, right]`,
with fuel covering the maximal number of iterations. -/
def binarySearchAux (entries : List Entry) (target : String) :
    Nat → Int → Int → Option Entry
  | 0, _, _ => none
  | fuel + 1, left, right =>
    if left ≤ right then
      let mid := (left + right) / 2
      match entries.get? mid.toNat with
      | none => none
      | some e =>
        if e.key = target then some e
        else if e.key < target then binarySearchAux entries target fuel (mid + 1) right
        else binarySearchAux entries target fuel left (mid - 1)
    else none

def SSTable.binarySearch (t : SSTable) (key : String) : Option Entry :=
  binarySearchAux t.entries key (t.entries.length + 2) 0 (t.entries.length - 1 : Int)

/-- SSTable.get: `undefined` when the bloom filter rejects the key, the
search misses, or the entry has expired; otherwise `entry.value`
(`null` for a tombstone). -/
def SSTable.get (t : SSTable) (key : String) (now : Int) : JsVal :=
  let hit :=
    match t.bloom with
    | some f => f.contains key
    | none => true
  if hit then
    match t.binarySearch key with
    | none => .undefv
    | some e =>
      if e.isExpired now then .undefv
      else
        match e.value with
        | none => .nullv
        | some v => .val v
  else .undefv

/-- Modelled from the spec: `SSTable.exists`, called by
`StorageEngine.exists`, has no definition under src/.  Per §4.6
`EXISTS` behaves as `GET ≠ absent` with tombstones treated as absent. -/
def SSTable.existsLive (t : SSTable) (key : String) (now : Int) : Bool :=
  match t.binarySearch key with
  | some e => !e.isExpired now && e.value.isSome
  | none => false

/-! ### StorageEngine (the worker-side engine)

Seven levels of SSTables in a level-indexed list of lists; a WAL record
list; one memtable.  `wal.append` takes `(op, key, value?, ttl?)`.
Background compaction is scheduled asynchronously (`setImmediate`) and
is modelled separately by the CompactionEngine functions below. -/

structure WalRec where
  op : String
  key : String
  value : Option Val
  ttl : Option Int
  deriving DecidableEq, Repr

structure EngineState where
  memtable : Memtable
  sstables : List (List SSTable)
  wal : List WalRec
  enableBloom : Bool

/-- A fresh engine: empty memtable, levels 0..6 empty. -/
def EngineState.new (maxSizeMB : Int) (enableBloom : Bool) : EngineState :=
  ⟨Memtable.new maxSizeMB, List.replicate 7 [], [], enableBloom⟩

/-- StorageEngine.flushMemtable: freeze the non-expired entries into a
new L0 table, then clear the memtable and the WAL. -/
def engineFlushMemtable (st : EngineState) (now : Int) : EngineState :=
  if st.memtable.data.isEmpty then st
  else
    let entries := st.memtable.getAllEntries now
    let t := SSTable.build 0 entries st.enableBloom now
    { st with
      sstables := st.sstables.set 0 ((st.sstables.getD 0 []) ++ [t])
      memtable := st.memtable.clear
      wal := [] }

/-- StorageEngine.set: WAL append, memtable set, flush when full. -/
def engineSet (st : EngineState) (key : String) (value : Val) (ttl : Option Int)
    (now : Int) : EngineState :=
  let st1 := { st with wal := st.wal ++ [(⟨"SET", key, some value, ttl⟩ : WalRec)] }
  let m := st1.memtable.set key (some value) ttl now
  let st2 := { st1 with memtable := m }
  if m.isFull then engineFlushMemtable st2 now else st2

/-- The probe order of the read path: levels 0..6, and inside a level
from the newest table (highest index) to the oldest. -/
def EngineState.probeOrder (st : EngineState) : List SSTable :=
  (st.sstables.map List.reverse).flatten

/-- The SSTable scan of `StorageEngine.get`: the loop returns the first
probed table's result unless that result is exactly `null`
(`if (value !== null) return value`), so a plain miss (`undefined`)
stops the scan and only a tombstone lets it continue. -/
def scanTables (tables : List SSTable) (key : String) (now : Int) : JsVal :=
  match tables with
  | [] => .nullv
  | t :: rest =>
    let v := t.get key now
    if v = .nullv then scanTables rest key now else v

/-- StorageEngine.get: memtable first, then the table scan. -/
def engineGet (st : EngineState) (key : String) (now : Int) :
    JsVal × EngineState :=
  let r := st.memtable.get key now
  let st' := { st with memtable := r.2 }
  match r.1 with
  | some v => (.val v, st')
  | none => (scanTables st'.probeOrder key now, st')

/-- StorageEngine.del: WAL append, then `memtable.delete` — a physical
removal from the memtable; no tombstone is ever written. -/
def engineDel (st : EngineState) (key : String) : Bool × EngineState :=
  let st1 := { st with wal := st.wal ++ [(⟨"DEL", key, none, none⟩ : WalRec)] }
  let r := st1.memtable.delete key
  (r.1, { st1 with memtable := r.2 })

/-- StorageEngine.exists: memtable, then every table. -/
def engineExists (st : EngineState) (key : String) (now : Int) : Bool :=
  st.memtable.existsLive key now ||
    st.probeOrder.any fun t => t.existsLive key now

/-- StorageEngine.expire: WAL append, then the memtable update. -/
def engineExpire (st : EngineState) (key : String) (ttl : Int) (now : Int) :
    Bool × EngineState :=
  let st1 := { st with wal := st.wal ++ [(⟨"EXPIRE", key, none, some ttl⟩ : WalRec)] }
  let r := st1.memtable.expire key ttl now
  (r.1, { st1 with memtable := r.2 })

/-- StorageEngine.ttl: any negative memtable result — including the `-2`
for an absent key — is collapsed to `-1`. -/
def engineTtl (st : EngineState) (key : String) (now : Int) : Int :=
  let memTtl := st.memtable.ttlOf key now
  if memTtl ≥ 0 then memTtl else -1

/-- StorageEngine.flushall: clears WAL, memtable, every level and the
compaction statistics. -/
def engineFlushall (st : EngineState) : EngineState :=
  { st with wal := [], memtable := st.memtable.clear,
            sstables := List.replicate 7 [] }

/-- A JS `Set` insertion over a list representation. -/
def jsSetInsert (s : List String) (k : String) : List String :=
  if k ∈ s then s else s ++ [k]

/-- The tombstone test of `StorageEngine.info` reads
`if (!entry.value === null)`: the boolean `!entry.value` is never
strictly equal to `null`, so the condition never holds. -/
def boolStrictEqNull (_b : Bool) : Bool := false

/-- StorageEngine.info, restricted to the `totalEntries` statistic the
claims are about: keys of SSTable entries passing the (broken) tombstone
test are collected into a `Set`; memtable keys are never added. -/
def engineInfoTotalEntries (st : EngineState) : Nat :=
  let allKeys := st.sstables.flatten.foldl
    (fun acc t =>
      t.entries.foldl
        (fun acc e =>
          if boolStrictEqNull (!e.value.isSome) then jsSetInsert acc e.key else acc)
        acc)
    []
  allKeys.length

/-! ### CompactionEngine (src/worker/compaction/CompactionEngine.ts) -/

/-- One step of the `keyMap` construction in
`mergeSSTablesWithOverlap`: keep the existing binding unless the new
entry's timestamp is strictly larger (`entry.timestamp >
existing.timestamp`); the version is never consulted. -/
def updateLatest (m : JsMap Entry) (e : Entry) : JsMap Entry :=
  match m.find e.key with
  | none => m ++ [(e.key, e)]
  | some existing =>
    if existing.timestamp < e.timestamp then m.setk e.key e else m

/-- All entries of the input tables in processing order. -/
def allInputEntries (tables : List SSTable) : List Entry :=
  (tables.map SSTable.entries).flatten

/-- CompactionEngine.mergeSSTablesWithOverlap: latest-by-timestamp per
key, then tombstones and expired entries are filtered out (at EVERY
level), then sort by key. -/
def mergeSSTablesWithOverlap (tables : List SSTable) (now : Int) : List Entry :=
  let keyMap := (allInputEntries tables).foldl updateLatest ([] : JsMap Entry)
  let validEntries := keyMap.entriesOf.filterMap fun p =>
    if p.2.value.isNone then none
    else if p.2.isExpired now then none
    else some p.2
  List.insertionSort (fun a b => a.key ≤ b.key) validEntries

/-- CompactionEngine.compactLevel0: merge all L0 tables and emit one new
table at level 1 (never the bottom level). -/
def compactLevel0 (tables : List SSTable) (enableBloom : Bool) (now : Int) :
    SSTable :=
  SSTable.build 1 (mergeSSTablesWithOverlap tables now) enableBloom now

/-- The cursor selection of `mergeSSTables`: the first list whose head
has the strictly smallest key wins (`key < minKey`). -/
def pickMinAux : List (List Entry) → Nat → Option (Nat × Entry) → Option (Nat × Entry)
  | [], _, best => best
  | l :: rest, i, best =>
    let best' :=
      match l with
      | [] => best
      | e :: _ =>
        match best with
        | none => some (i, e)
        | some (j, be) => if e.key < be.key then some (i, e) else some (j, be)
    pickMinAux rest (i + 1) best'

def pickMin (lists : List (List Entry)) : Option (Nat × Entry) :=
  pickMinAux lists 0 none

/-- Advance the chosen cursor: drop the head of the i-th list. -/
def popAt : List (List Entry) → Nat → List (List Entry)
  | [], _ => []
  | l :: rest, 0 => l.tail :: rest
  | l :: rest, i + 1 => l :: popAt rest i

/-- The k-way merge loop of `mergeSSTables`: repeatedly take the
smallest-keyed head; tombstones and expired entries are skipped
unconditionally.  The fuel bounds the number of iterations; each
iteration pops one element, so `total length + 1` never runs out. -/
def kWayMergeAux (now : Int) : Nat → List (List Entry) → List Entry
  | 0, _ => []
  | fuel + 1, lists =>
    match pickMin lists with
    | none => []
    | some (i, e) =>
      let lists' := popAt lists i
      if e.value.isNone || e.isExpired now then kWayMergeAux now fuel lists'
      else e :: kWayMergeAux now fuel lists'

/-- CompactionEngine.mergeSSTables. -/
def mergeSSTables (tables : List SSTable) (now : Int) : List Entry :=
  let lists := tables.map SSTable.entries
  kWayMergeAux now ((lists.map List.length).sum + 1) lists

/-! ### StorageEngine.keys

The per-table matcher of `StorageEngine.keys` is built inline from the
raw pattern with only `*` rewritten to `.*` — no escaping, no anchors
and `?` left untouched — and `!entry.deleted` reads a field that
`StorageEntry` does not have, so it is always true and tombstones pass.
The compilation below covers patterns containing no regex
metacharacters other than `*` and `.`. -/

def compileEngineKeys (p : String) : List GlobTok :=
  p.toList.map fun c => if c = '*' then .star else if c = '.' then .anyc else .lit c

def engineKeysTableTest (pattern : Option String) (k : String) : Bool :=
  match pattern with
  | none => true
  | some p => (k.toList.tails).any fun s => globMatchInit (compileEngineKeys p) s

/-- StorageEngine.keys: memtable keys (anchored, escaped matcher) and
run keys (inline unanchored matcher) collected into a JS `Set`. -/
def engineKeys (st : EngineState) (pattern : Option String) (now : Int) :
    List String :=
  let memKeys := st.memtable.keys pattern now
  let init := memKeys.foldl jsSetInsert []
  st.sstables.flatten.foldl
    (fun acc t =>
      t.entries.foldl
        (fun acc e =>
          if engineKeysTableTest pattern e.key then jsSetInsert acc e.key else acc)
        acc)
    init

/-! ### WorkerThread.executeCommand (the worker-side dispatcher)

Commands are the `CommandType` union of src/types/index.ts; the switch
in `executeCommand` has no case for MGET and MSET, so they fall to the
default branch (unknown command).  JS argument checks are `!args.key`
(falsy: missing or empty string) and `!args.ttl` (falsy: missing or
zero — a NEGATIVE ttl is truthy and passes). -/

inductive CommandType where
  | SET | GET | DEL | EXPIRE | TTL | INCR | DECR
  | KEYS | FLUSHALL | INFO | EXISTS | MGET | MSET
  deriving DecidableEq, Repr

structure Args where
  key : Option String
  value : Option Val
  ttl : Option Int
  pattern : Option String
  amount : Option Int
  deriving DecidableEq, Repr

/-- Arguments with every field absent. -/
def Args.empty : Args := ⟨none, none, none, none, none⟩

/-- JS falsiness of an optional string (`undefined` and `""`). -/
def jsFalsyStrOpt : Option String → Bool
  | none => true
  | some s => s = ""

/-- JS falsiness of an optional number (`undefined` and `0`). -/
def jsFalsyIntOpt : Option Int → Bool
  | none => true
  | some t => t = 0

/-- JS `args.amount || 1`. -/
def jsAmountOr1 : Option Int → Int
  | none => 1
  | some a => if a = 0 then 1 else a

inductive WorkerErr where
  | validationError (msg : String)
  | unknownError (msg : String)
  deriving DecidableEq, Repr

inductive CmdResult where
  | unit
  | boolV (b : Bool)
  | intV (n : Int)
  | jsV (v : JsVal)
  | keysV (ks : List String)
  | infoV (totalEntries : Nat)
  deriving Repr

def isValidationErr {α : Type} : Except WorkerErr α → Bool
  | .error (.validationError _) => true
  | _ => false

/-- WorkerThread.executeCommand: validation checks happen before any
engine call; each failing check returns before the state is touched. -/
def executeCommand (cmd : CommandType) (args : Args) (st : EngineState)
    (now : Int) : Except WorkerErr CmdResult × EngineState :=
  match cmd with
  | .SET =>
    if jsFalsyStrOpt args.key || args.value.isNone then
      (.error (.validationError "SET requires key and value"), st)
    else
      match args.key, args.value with
      | some k, some v => (.ok .unit, engineSet st k v args.ttl now)
      | _, _ => (.error (.validationError "SET requires key and value"), st)
  | .GET =>
    if jsFalsyStrOpt args.key then
      (.error (.validationError "GET requires key"), st)
    else
      match args.key with
      | some k =>
        let r := engineGet st k now
        (.ok (.jsV r.1), r.2)
      | none => (.error (.validationError "GET requires key"), st)
  | .DEL =>
    if jsFalsyStrOpt args.key then
      (.error (.validationError "DEL requires key"), st)
    else
      match args.key with
      | some k =>
        let r := engineDel st k
        (.ok (.boolV r.1), r.2)
      | none => (.error (.validationError "DEL requires key"), st)
  | .EXISTS =>
    if jsFalsyStrOpt args.key then
      (.error (.validationError "EXISTS requires key"), st)
    else
      match args.key with
      | some k => (.ok (.boolV (engineExists st k now)), st)
      | none => (.error (.validationError "EXISTS requires key"), st)
  | .EXPIRE =>
    if jsFalsyStrOpt args.key || jsFalsyIntOpt args.ttl then
      (.error (.validationError "EXPIRE requires key and ttl"), st)
    else
      match args.key, args.ttl with
      | some k, some t =>
        let r := engineExpire st k t now
        (.ok (.boolV r.1), r.2)
      | _, _ => (.error (.validationError "EXPIRE requires key and ttl"), st)
  | .TTL =>
    if jsFalsyStrOpt args.key then
      (.error (.validationError "TTL requires key"), st)
    else
      match args.key with
      | some k => (.ok (.intV (engineTtl st k now)), st)
      | none => (.error (.validationError "TTL requires key"), st)
  | .INCR =>
    if jsFalsyStrOpt args.key then
      (.error (.validationError "INCR requires key"), st)
    else
      match args.key with
      | some k =>
        let r := engineGet st k now
        let current : Int := match r.1 with | .val (.num n) => n | _ => 0
        let newValue := current + jsAmountOr1 args.amount
        (.ok (.intV newValue), engineSet r.2 k (.num newValue) none now)
      | none => (.error (.validationError "INCR requires key"), st)
  | .DECR =>
    if jsFalsyStrOpt args.key then
      (.error (.validationError "DECR requires key"), st)
    else
      match args.key with
      | some k =>
        let r := engineGet st k now
        let current : Int := match r.1 with | .val (.num n) => n | _ => 0
        let newValue := current - jsAmountOr1 args.amount
        (.ok (.intV newValue), engineSet r.2 k (.num newValue) none now)
      | none => (.error (.validationError "DECR requires key"), st)
  | .KEYS => (.ok (.keysV (engineKeys st args.pattern now)), st)
  | .FLUSHALL => (.ok .unit, engineFlushall st)
  | .INFO => (.ok (.infoV (engineInfoTotalEntries st)), st)
  | .MGET => (.error (.validationError "Unknown command"), st)
  | .MSET => (.error (.validationError "Unknown command"), st)

/-- The validation conditions the dispatcher actually implements:
falsy key where a key is required, missing value for SET, falsy
(missing or zero, NOT negative) ttl for EXPIRE, and commands outside
the switch. -/
def validationFails (cmd : CommandType) (args : Args) : Bool :=
  match cmd with
  | .SET => jsFalsyStrOpt args.key || args.value.isNone
  | .GET | .DEL | .EXISTS | .TTL | .INCR | .DECR => jsFalsyStrOpt args.key
  | .EXPIRE => jsFalsyStrOpt args.key || jsFalsyIntOpt args.ttl
  | .KEYS | .FLUSHALL | .INFO => false
  | .MGET | .MSET => true

/-! ### Specification-side reference definitions (for comparison only) -/

/-- Written from the spec's words for claim C7: the number of distinct
live keys across the memtable and all runs, deduplicated by stringified
key, with tombstoned and expired entries excluded. -/
def specTotalLiveKeys (st : EngineState) (now : Int) : Nat :=
  let memEntries := st.memtable.data.entriesOf.map Prod.snd
  let runEntries := (st.sstables.flatten.map SSTable.entries).flatten
  ((((memEntries ++ runEntries).filter
      fun e => !e.isExpired now && e.value.isSome)).map Entry.key).dedup.length

/-! ### Concrete scenario states used by the claim theorems -/

/-- An engine whose memtable flushes on every write
(`maxMemtableSizeMB = 0`, a configuration the constructor accepts), so a
single SET produces an L0 run. -/
def c1Start : EngineState := EngineState.new 0 false

def c1AfterSet : EngineState := engineSet c1Start "k" (.str "old") none 5

def c1AfterDel : EngineState := (engineDel c1AfterSet "k").2

/-- A tombstone entry and an L0 table holding only it. -/
def c3Tombstone : Entry := ⟨"k", none, 5, none, 1⟩

def c3Input : SSTable := SSTable.build 0 [c3Tombstone] false 5

/-- A live entry and an L0 table holding only it. -/
def c3Live : Entry := ⟨"a", some (.str "x"), 5, none, 1⟩

def c3LiveTable : SSTable := SSTable.build 0 [c3Live] false 5

/-- Two entries for the same key with equal timestamps and different
versions, in two L0 tables; the first-processed table holds the SMALLER
version. -/
def c4e1 : Entry := ⟨"k", some (.str "x"), 5, none, 1⟩

def c4e2 : Entry := ⟨"k", some (.str "y"), 5, none, 2⟩

def c4t1 : SSTable := SSTable.build 0 [c4e1] false 5

def c4t2 : SSTable := SSTable.build 0 [c4e2] false 5

/-- A SimpleStorage state holding the single key "ab". -/
def c5State : SimpleState := simpleSet SimpleState.empty "ab" (.str "v") none 1

/-- A SimpleStorage state with key "k" live and expiring at 5000 ms. -/
def c2WitnessState : SimpleState :=
  ⟨[("k", ⟨"k", some (.str "v"), 1000, some 5000, 1⟩)], [("k", 5000)]⟩

/-- A live run entry for "a" and a live memtable entry for "b": two
distinct live keys across memtable and runs. -/
def c7RunEntry : Entry := ⟨"a", some (.str "1"), 1, none, 1⟩

def c7Table : SSTable := SSTable.build 0 [c7RunEntry] false 1

def c7MemEntry : Entry := ⟨"b", some (.str "2"), 2, none, 1⟩

def c7State : EngineState :=
  { memtable := { data := [("b", c7MemEntry)], sizeBytes := entrySize c7MemEntry,
                  maxSizeBytes := 64 * 1024 * 1024 }
    sstables := [[c7Table], [], [], [], [], [], []]
    wal := []
    enableBloom := false }

/-- EXPIRE arguments with a negative ttl (truthy in JS). -/
def c8NegArgs : Args := ⟨some "k", none, some (-5), none, none⟩

/-- EXPIRE arguments with a zero ttl (falsy in JS). -/
def c8ZeroArgs : Args := ⟨some "k", none, some 0, none, none⟩

/-! ## Lemmas -/

namespace JsMap

variable {α : Type}

theorem find_some_mem {m : JsMap α} {k : String} {v : α}
    (h : find m k = some v) : (k, v) ∈ m := by
  induction m with
  | nil => simp [find] at h
  | cons p rest ih =>
    obtain ⟨pk, pv⟩ := p
    rw [find] at h
    by_cases hk : pk = k
    · subst hk
      simp only [if_pos rfl] at h
      cases h
      exact List.mem_cons_self _ _
    · simp only [if_neg hk] at h
      exact List.mem_cons_of_mem _ (ih h)

theorem find_eq_none_iff {m : JsMap α} {k : String} :
    find m k = none ↔ k ∉ m.map Prod.fst := by
  induction m with
  | nil => simp [find]
  | cons p rest ih =>
    obtain ⟨pk, pv⟩ := p
    rw [find]
    by_cases hk : pk = k
    · simp [hk]
    · simp [hk, ih, Ne.symm hk]

theorem mem_setk {m : JsMap α} {k : String} {v : α} {p : String × α}
    (hp : p ∈ setk m k v) : p = (k, v) ∨ p ∈ m := by
  induction m with
  | nil =>
    simp only [setk, List.mem_singleton] at hp
    exact Or.inl hp
  | cons q rest ih =>
    obtain ⟨qk, qv⟩ := q
    rw [setk] at hp
    by_cases hq : qk = k
    · simp only [if_pos hq] at hp
      rcases List.mem_cons.mp hp with h | h
      · exact Or.inl h
      · exact Or.inr (List.mem_cons_of_mem _ h)
    · simp only [if_neg hq] at hp
      rcases List.mem_cons.mp hp with h | h
      · exact Or.inr (h ▸ List.mem_cons_self _ _)
      · rcases ih h with h' | h'
        · exact Or.inl h'
        · exact Or.inr (List.mem_cons_of_mem _ h')

/-- With unique keys, a binding of the updated map is either the new
binding or an untouched binding at a different key. -/
theorem mem_setk_nodup {m : JsMap α} {k : String} {v : α} {p : String × α}
    (hnd : (m.map Prod.fst).Nodup) (hp : p ∈ setk m k v) :
    p = (k, v) ∨ (p ∈ m ∧ p.1 ≠ k) := by
  induction m with
  | nil =>
    simp only [setk, List.mem_singleton] at hp
    exact Or.inl hp
  | cons q rest ih =>
    obtain ⟨qk, qv⟩ := q
    rw [List.map_cons, List.nodup_cons] at hnd
    rw [setk] at hp
    by_cases hq : qk = k
    · simp only [if_pos hq] at hp
      rcases List.mem_cons.mp hp with h | h
      · exact Or.inl h
      · refine Or.inr ⟨List.mem_cons_of_mem _ h, fun hpk => hnd.1 ?_⟩
        rw [hq, ← hpk]
        exact List.mem_map.mpr ⟨p, h, rfl⟩
    · simp only [if_neg hq] at hp
      rcases List.mem_cons.mp hp with h | h
      · exact Or.inr ⟨h ▸ List.mem_cons_self _ _, h ▸ hq⟩
      · rcases ih hnd.2 h with h' | h'
        · exact Or.inl h'
        · exact Or.inr ⟨List.mem_cons_of_mem _ h'.1, h'.2⟩

/-- `setk` preserves bindings at other keys. -/
theorem mem_setk_of_mem {m : JsMap α} {k : String} {v : α} {p : String × α}
    (hp : p ∈ m) (hne : p.1 ≠ k) : p ∈ setk m k v := by
  induction m with
  | nil => simp at hp
  | cons q rest ih =>
    obtain ⟨qk, qv⟩ := q
    rw [setk]
    rcases List.mem_cons.mp hp with h | h
    · subst h
      rw [if_neg hne]
      exact List.mem_cons_self _ _
    · by_cases hq : qk = k
      · simp only [if_pos hq]
        exact List.mem_cons_of_mem _ h
      · simp only [if_neg hq]
        exact List.mem_cons_of_mem _ (ih h)

/-- When the key is already bound, `setk` does not change the key list. -/
theorem map_fst_setk_of_mem {m : JsMap α} {k : String} {v : α}
    (h : k ∈ m.map Prod.fst) : (setk m k v).map Prod.fst = m.map Prod.fst := by
  induction m with
  | nil => simp at h
  | cons q rest ih =>
    obtain ⟨qk, qv⟩ := q
    rw [setk]
    by_cases hq : qk = k
    · simp [hq]
    · simp only [if_neg hq, List.map_cons]
      have h' : k ∈ rest.map Prod.fst := by
        rcases List.mem_map.mp h with ⟨p, hp, hpk⟩
        rcases List.mem_cons.mp hp with rfl | hp'
        · exact absurd hpk hq
        · exact List.mem_map.mpr ⟨p, hp', hpk⟩
      rw [ih h']

/-- Looking up the key just written returns the written value. -/
theorem find_setk_self {m : JsMap α} {k : String} {v : α} :
    find (setk m k v) k = some v := by
  induction m with
  | nil => simp [setk, find]
  | cons q rest ih =>
    obtain ⟨qk, qv⟩ := q
    rw [setk]
    by_cases hq : qk = k
    · simp [hq, find]
    · simp only [if_neg hq]
      rw [find, if_neg hq]
      exact ih

/-- Lookup at a different key is unaffected by `setk`. -/
theorem find_setk_ne {m : JsMap α} {k k' : String} {v : α} (h : k' ≠ k) :
    find (setk m k v) k' = find m k' := by
  induction m with
  | nil => simp [setk, find, Ne.symm h]
  | cons q rest ih =>
    obtain ⟨qk, qv⟩ := q
    rw [setk]
    by_cases hq : qk = k
    · subst hq
      simp only [if_pos rfl, find]
      rw [if_neg (fun hk => h hk.symm), if_neg (fun hk => h hk.symm)]
    · simp only [if_neg hq, find]
      by_cases hq' : qk = k'
      · simp [hq']
      · simp only [if_neg hq']
        exact ih

/-- Lookup distributes over append, left side first. -/
theorem find_append {m₁ m₂ : JsMap α} {k : String} :
    find (m₁ ++ m₂) k = match find m₁ k with
      | some v => some v
      | none => find m₂ k := by
  induction m₁ with
  | nil => simp [find]
  | cons q rest ih =>
    obtain ⟨qk, qv⟩ := q
    rw [List.cons_append, find, find]
    by_cases hq : qk = k
    · simp [hq]
    · simp only [if_neg hq]
      exact ih

/-- With unique keys, membership determines the lookup result. -/
theorem find_eq_of_mem_nodup {m : JsMap α} {k : String} {v : α}
    (hnd : (m.map Prod.fst).Nodup) (h : (k, v) ∈ m) : find m k = some v := by
  induction m with
  | nil => simp at h
  | cons q rest ih =>
    obtain ⟨qk, qv⟩ := q
    rw [List.map_cons, List.nodup_cons] at hnd
    rw [find]
    rcases List.mem_cons.mp h with h' | h'
    · cases h'
      simp
    · by_cases hq : qk = k
      · exfalso
        apply hnd.1
        rw [hq]
        exact List.mem_map.mpr ⟨(k, v), h', rfl⟩
      · simp only [if_neg hq]
        exact ih hnd.2 h'

end JsMap

/-- A token list made only of literals matches exactly the equal string. -/
theorem globMatch_lits (cs : List Char) :
    ∀ s, globMatch (cs.map GlobTok.lit) s = true ↔ s = cs := by
  induction cs with
  | nil =>
    intro s
    cases s <;> simp [globMatch]
  | cons c cs' ih =>
    intro s
    cases s with
    | nil => simp [globMatch]
    | cons c' s' =>
      simp only [List.map_cons, globMatch, Bool.and_eq_true, decide_eq_true_eq,
        ih s', List.cons_eq_cons]
      constructor
      · rintro ⟨h1, h2⟩
        exact ⟨h1.symm, h2⟩
      · rintro ⟨h1, h2⟩
        exact ⟨h1.symm, h2⟩

/-- On a pattern without `*` and `?`, `patternToRegex` compiles to
literal tokens only. -/
theorem compileAnchored_eq_lits {p : String}
    (h : ∀ c ∈ p.toList, c ≠ '*' ∧ c ≠ '?') :
    compileAnchored p = p.toList.map GlobTok.lit := by
  unfold compileAnchored
  apply List.map_congr_left
  intro c hc
  rcases h c hc with ⟨h1, h2⟩
  simp [h1, h2]

/-! ### Bloom filter lemmas -/

theorem setBit_apply_mono {bits : Nat → Bool} {i j : Nat} (h : bits j = true) :
    setBit bits i j = true := by
  unfold setBit
  by_cases hj : j = i <;> simp [hj, h]

theorem setBit_apply_self {bits : Nat → Bool} {i : Nat} :
    setBit bits i i = true := by
  simp [setBit]

/-- Folding bit-writes never clears a bit. -/
theorem foldl_setBit_mono (g : Nat → Nat) :
    ∀ (l : List Nat) (bits : Nat → Bool) (j : Nat), bits j = true →
      (l.foldl (fun b h' => setBit b (g h')) bits) j = true := by
  intro l
  induction l with
  | nil => intro bits j h; simpa using h
  | cons a t ih =>
    intro bits j h
    rw [List.foldl_cons]
    exact ih _ _ (setBit_apply_mono h)

/-- Folding bit-writes sets every written position. -/
theorem foldl_setBit_sets (g : Nat → Nat) :
    ∀ (l : List Nat) (bits : Nat → Bool) (a : Nat), a ∈ l →
      (l.foldl (fun b h' => setBit b (g h')) bits) (g a) = true := by
  intro l
  induction l with
  | nil => intro bits a h; simp at h
  | cons b t ih =>
    intro bits a h
    rw [List.foldl_cons]
    rcases List.mem_cons.mp h with rfl | h'
    · exact foldl_setBit_mono g t _ _ setBit_apply_self
    · exact ih _ _ h'

theorem add_size (f : BloomFilter) (key : String) : (f.add key).size = f.size := rfl

theorem add_numHashes (f : BloomFilter) (key : String) :
    (f.add key).numHashes = f.numHashes := rfl

theorem foldl_add_size (keys : List String) :
    ∀ f : BloomFilter, (keys.foldl BloomFilter.add f).size = f.size := by
  induction keys with
  | nil => intro f; rfl
  | cons a t ih => intro f; rw [List.foldl_cons, ih]; rfl

theorem foldl_add_numHashes (keys : List String) :
    ∀ f : BloomFilter, (keys.foldl BloomFilter.add f).numHashes = f.numHashes := by
  induction keys with
  | nil => intro f; rfl
  | cons a t ih => intro f; rw [List.foldl_cons, ih]; rfl

/-- `add` sets every bit that `contains` will probe for the same key. -/
theorem add_sets_probes (f : BloomFilter) (key : String) {h : Nat}
    (hh : h ∈ getHashes f.numHashes key) :
    (f.add key).bits (h % f.size) = true :=
  foldl_setBit_sets (fun x => x % f.size) _ _ _ hh

theorem add_bits_mono (f : BloomFilter) (key : String) {j : Nat}
    (h : f.bits j = true) : (f.add key).bits j = true :=
  foldl_setBit_mono (fun x => x % f.size) _ _ _ h

theorem foldl_add_bits_mono (keys : List String) :
    ∀ (f : BloomFilter) (j : Nat), f.bits j = true →
      (keys.foldl BloomFilter.add f).bits j = true := by
  induction keys with
  | nil => intro f j h; simpa using h
  | cons a t ih =>
    intro f j h
    rw [List.foldl_cons]
    exact ih _ _ (add_bits_mono f a h)

/-- The general no-false-negative property over any starting filter. -/
theorem foldl_add_contains (keys : List String) :
    ∀ (f : BloomFilter) (k : String), k ∈ keys →
      (keys.foldl BloomFilter.add f).contains k = true := by
  induction keys with
  | nil => intro f k h; simp at h
  | cons a t ih =>
    intro f k hk
    rcases List.mem_cons.mp hk with rfl | h'
    · rw [List.foldl_cons]
      unfold BloomFilter.contains
      rw [List.all_eq_true]
      intro x hx
      rw [foldl_add_numHashes] at hx
      rw [foldl_add_size]
      rw [add_numHashes] at hx
      rw [add_size]
      exact foldl_add_bits_mono t _ _ (add_sets_probes f k hx)
    · rw [List.foldl_cons]
      exact ih _ _ h'

/-! ### Compaction merge lemmas -/

/-- One `updateLatest` step preserves the keyMap invariant: unique keys;
each binding holds an already-processed entry for its own key carrying
the maximal timestamp among processed entries for that key; every
processed key is bound. -/
theorem updateLatest_inv {m : JsMap Entry} {seen : List Entry} (e : Entry)
    (h1 : (m.map Prod.fst).Nodup)
    (h2 : ∀ p ∈ m, p.2.key = p.1 ∧ p.2 ∈ seen ∧
      ∀ e' ∈ seen, e'.key = p.1 → e'.timestamp ≤ p.2.timestamp)
    (h3 : ∀ e' ∈ seen, (JsMap.find m e'.key).isSome = true) :
    ((updateLatest m e).map Prod.fst).Nodup ∧
    (∀ p ∈ updateLatest m e, p.2.key = p.1 ∧ p.2 ∈ seen ++ [e] ∧
      ∀ e' ∈ seen ++ [e], e'.key = p.1 → e'.timestamp ≤ p.2.timestamp) ∧
    (∀ e' ∈ seen ++ [e], (JsMap.find (updateLatest m e) e'.key).isSome = true) := by
  unfold updateLatest
  split
  next hf =>
    have hnotin : e.key ∉ m.map Prod.fst := JsMap.find_eq_none_iff.mp hf
    refine ⟨?_, ?_, ?_⟩
    · rw [List.map_append]
      refine List.nodup_append.mpr ⟨h1, List.nodup_singleton _, ?_⟩
      intro a ha hb
      simp only [List.map_cons, List.map_nil, List.mem_singleton] at hb
      subst hb
      exact hnotin ha
    · intro p hp
      rcases List.mem_append.mp hp with hpm | hpe
      · obtain ⟨hk, hs, hb⟩ := h2 p hpm
        refine ⟨hk, List.mem_append_left _ hs, ?_⟩
        intro e' he' hke
        rcases List.mem_append.mp he' with he's | he'e
        · exact hb e' he's hke
        · exfalso
          rcases List.mem_singleton.mp he'e with rfl
          exact hnotin (hke ▸ List.mem_map.mpr ⟨p, hpm, rfl⟩)
      · rcases List.mem_singleton.mp hpe with rfl
        refine ⟨rfl, List.mem_append_right _ (List.mem_singleton.mpr rfl), ?_⟩
        intro e' he' hke
        rcases List.mem_append.mp he' with he's | he'e
        · exfalso
          have := h3 e' he's
          rw [hke] at this
          rw [hf] at this
          simp at this
        · rcases List.mem_singleton.mp he'e with rfl
          exact le_refl _
    · intro e' he'
      rcases List.mem_append.mp he' with he's | he'e
      · rw [JsMap.find_append]
        cases hfe : JsMap.find m e'.key with
        | none =>
          have := h3 e' he's
          rw [hfe] at this
          simp at this
        | some v => simp
      · rcases List.mem_singleton.mp he'e with rfl
        rw [JsMap.find_append, hf]
        simp [JsMap.find]
  next ex hf =>
    have hmem : (e.key, ex) ∈ m := JsMap.find_some_mem hf
    have hkeymem : e.key ∈ m.map Prod.fst := List.mem_map.mpr ⟨(e.key, ex), hmem, rfl⟩
    by_cases hts : ex.timestamp < e.timestamp
    · rw [if_pos hts]
      refine ⟨?_, ?_, ?_⟩
      · rw [JsMap.map_fst_setk_of_mem hkeymem]
        exact h1
      · intro p hp
        rcases JsMap.mem_setk_nodup h1 hp with rfl | ⟨hpm, hpne⟩
        · refine ⟨rfl, List.mem_append_right _ (List.mem_singleton.mpr rfl), ?_⟩
          intro e' he' hke
          rcases List.mem_append.mp he' with he's | he'e
          · have hb := (h2 (e.key, ex) hmem).2.2 e' he's hke
            exact le_trans hb (le_of_lt hts)
          · rcases List.mem_singleton.mp he'e with rfl
            exact le_refl _
        · obtain ⟨hk, hs, hb⟩ := h2 p hpm
          refine ⟨hk, List.mem_append_left _ hs, ?_⟩
          intro e' he' hke
          rcases List.mem_append.mp he' with he's | he'e
          · exact hb e' he's hke
          · exfalso
            rcases List.mem_singleton.mp he'e with rfl
            exact hpne hke.symm
      · intro e' he'
        rcases List.mem_append.mp he' with he's | he'e
        · by_cases hke : e'.key = e.key
          · rw [hke, JsMap.find_setk_self]
            simp
          · rw [JsMap.find_setk_ne hke]
            exact h3 e' he's
        · rcases List.mem_singleton.mp he'e with rfl
          rw [JsMap.find_setk_self]
          simp
    · rw [if_neg hts]
      refine ⟨h1, ?_, ?_⟩
      · intro p hp
        obtain ⟨hk, hs, hb⟩ := h2 p hp
        refine ⟨hk, List.mem_append_left _ hs, ?_⟩
        intro e' he' hke
        rcases List.mem_append.mp he' with he's | he'e
        · exact hb e' he's hke
        · rcases List.mem_singleton.mp he'e with rfl
          have hfind : JsMap.find m p.1 = some p.2 := by
            have hp' : (p.1, p.2) ∈ m := by
              rw [show (p.1, p.2) = p from rfl]
              exact hp
            exact JsMap.find_eq_of_mem_nodup h1 hp'
          rw [← hke, hf] at hfind
          cases hfind
          exact le_of_not_lt hts
      · intro e' he'
        rcases List.mem_append.mp he' with he's | he'e
        · exact h3 e' he's
        · rcases List.mem_singleton.mp he'e with rfl
          rw [hf]
          simp

/-- The keyMap fold keeps the invariant along any entry list. -/
theorem foldl_updateLatest_inv :
    ∀ (es : List Entry) (m : JsMap Entry) (seen : List Entry),
      (m.map Prod.fst).Nodup →
      (∀ p ∈ m, p.2.key = p.1 ∧ p.2 ∈ seen ∧
        ∀ e' ∈ seen, e'.key = p.1 → e'.timestamp ≤ p.2.timestamp) →
      (∀ e' ∈ seen, (JsMap.find m e'.key).isSome = true) →
      ((es.foldl updateLatest m).map Prod.fst).Nodup ∧
      (∀ p ∈ es.foldl updateLatest m, p.2.key = p.1 ∧ p.2 ∈ seen ++ es ∧
        ∀ e' ∈ seen ++ es, e'.key = p.1 → e'.timestamp ≤ p.2.timestamp) := by
  intro es
  induction es with
  | nil =>
    intro m seen h1 h2 _
    rw [List.foldl_nil, List.append_nil]
    exact ⟨h1, h2⟩
  | cons e t ih =>
    intro m seen h1 h2 h3
    rw [List.foldl_cons]
    obtain ⟨g1, g2, g3⟩ := updateLatest_inv e h1 h2 h3
    have := ih (updateLatest m e) (seen ++ [e]) g1 g2 g3
    rw [List.append_assoc, List.singleton_append] at this
    exact this

/-- The keys of the entries kept by a key-respecting `filterMap` form a
sublist of the map's key list. -/
theorem filterMap_keys_sublist (f : String × Entry → Option Entry) :
    ∀ m : JsMap Entry, (∀ p ∈ m, ∀ e, f p = some e → e.key = p.1) →
      ((m.filterMap f).map Entry.key).Sublist (m.map Prod.fst) := by
  intro m
  induction m with
  | nil => intro _; simp
  | cons p rest ih =>
    intro hf
    rw [List.filterMap_cons]
    cases hfp : f p with
    | none =>
      rw [List.map_cons]
      exact (ih fun q hq => hf q (List.mem_cons_of_mem _ hq)).cons _
    | some e =>
      rw [List.map_cons, List.map_cons]
      have : e.key = p.1 := hf p (List.mem_cons_self _ _) e hfp
      rw [this]
      exact (ih fun q hq => hf q (List.mem_cons_of_mem _ hq)).cons₂ _

/-- Every entry emitted by the k-way merge loop survived the
tombstone/expiry skip, so it is not a tombstone. -/
theorem kWayMergeAux_no_tombstone (now : Int) :
    ∀ (fuel : Nat) (lists : List (List Entry)) (e : Entry),
      e ∈ kWayMergeAux now fuel lists → e.value.isSome = true := by
  intro fuel
  induction fuel with
  | zero =>
    intro lists e h
    simp [kWayMergeAux] at h
  | succ n ih =>
    intro lists e h
    rw [kWayMergeAux] at h
    cases hp : pickMin lists with
    | none =>
      simp only [hp] at h
      simp at h
    | some ie =>
      obtain ⟨i, e'⟩ := ie
      simp only [hp] at h
      by_cases hc : (e'.value.isNone || e'.isExpired now) = true
      · rw [if_pos hc] at h
        exact ih _ _ h
      · rw [if_neg hc] at h
        rcases List.mem_cons.mp h with rfl | h'
        · simp only [Bool.or_eq_true, not_or] at hc
          cases hv : e.value with
          | none => exact absurd (by simp [hv]) hc.1
          | some v => simp [hv]
        · exact ih _ _ h'

/-- Destructing the tombstone/expiry filter of
`mergeSSTablesWithOverlap`: a kept entry is the binding's entry and is
not a tombstone. -/
theorem mergeFilter_eq_some {now : Int} {p : String × Entry} {e : Entry}
    (h : (if p.2.value.isNone then none
          else if p.2.isExpired now then none else some p.2) = some e) :
    e = p.2 ∧ e.value.isSome = true := by
  by_cases h1 : p.2.value.isNone = true
  · rw [if_pos h1] at h
    cases h
  · rw [if_neg h1] at h
    by_cases h2 : p.2.isExpired now = true
    · rw [if_pos h2] at h
      cases h
    · rw [if_neg h2] at h
      cases h
      refine ⟨rfl, ?_⟩
      cases hv : p.2.value with
      | none => rw [hv] at h1; exact absurd rfl h1
      | some v => exact rfl

/-- Ceiling division by 1000 of a positive remainder is positive. -/
theorem jsCeilDiv1000_pos {r : Int} (h : 0 < r) : 0 < jsCeilDiv1000 r := by
  unfold jsCeilDiv1000
  have h1 : 1 ≤ r.toNat := by omega
  have h2 : 1 ≤ (r.toNat + 999) / 1000 :=
    (Nat.le_div_iff_mul_le (by norm_num)).mpr (by omega)
  exact_mod_cast h2

/-! ## Claim theorems -/

/-- C1: the claim (and spec §4.1) require DEL to write a tombstone that
shadows older entries for the key in deeper runs, so that GET is absent
and EXISTS is false afterwards.  The code's `Memtable.delete` physically
removes the entry and writes no tombstone: starting from a fresh engine,
after SET "k" "old" (flushed into an L0 run) followed by DEL "k", GET
"k" returns "old" from the run and EXISTS "k" returns true. -/
theorem c1_del_writes_no_tombstone :
    (engineGet c1AfterDel "k" 6).1 = JsVal.val (.str "old") ∧
    engineExists c1AfterDel "k" 6 = true :=
  ⟨rfl, rfl⟩

/-- C2 counterexample: `StorageEngine.ttl` returns
`memTtl >= 0 ? memTtl : -1`, so the `-2` for an absent key is collapsed
to `-1`, contradicting the claim that TTL of an absent key is `-2`. -/
theorem c2_engine_ttl_absent_is_neg_one :
    engineTtl (EngineState.new 64 true) "missing" 0 = -1 ∧ ((-1 : Int) ≠ -2) :=
  ⟨rfl, by decide⟩

/-- C2 (amended): on the SimpleStorage path, `ttl` returns `-2` when the
key is absent from `data` or its recorded expiry has passed, `-1` when it
is present without a recorded expiry, and otherwise
`ceil((expires_at - now) / 1000)`, which is strictly positive; the
StorageEngine path instead returns `-1` for absent keys. -/
theorem c2_simple_ttl_trichotomy (st : SimpleState) (k : String) (now : Int) :
    (st.data.find k = none → (simpleTtl st k now).1 = -2) ∧
    (st.data.find k ≠ none → st.ttlData.find k = none →
      (simpleTtl st k now).1 = -1) ∧
    (∀ expiry, st.data.find k ≠ none → st.ttlData.find k = some expiry →
      expiry ≤ now → (simpleTtl st k now).1 = -2) ∧
    (∀ expiry, st.data.find k ≠ none → st.ttlData.find k = some expiry →
      now < expiry →
      (simpleTtl st k now).1 = jsCeilDiv1000 (expiry - now) ∧
        0 < (simpleTtl st k now).1) := by
  refine ⟨?_, ?_, ?_, ?_⟩
  · intro hd
    simp [simpleTtl, hd]
  · intro hd ht
    cases hdd : st.data.find k with
    | none => exact absurd hdd hd
    | some e => simp [simpleTtl, hdd, ht]
  · intro expiry hd ht hle
    cases hdd : st.data.find k with
    | none => exact absurd hdd hd
    | some e =>
      have hrem : expiry - now ≤ 0 := by omega
      simp [simpleTtl, hdd, ht, hrem]
  · intro expiry hd ht hlt
    cases hdd : st.data.find k with
    | none => exact absurd hdd hd
    | some e =>
      have hrem : ¬expiry - now ≤ 0 := by omega
      constructor
      · simp [simpleTtl, hdd, ht, hrem]
      · have := jsCeilDiv1000_pos (r := expiry - now) (by omega)
        simp only [simpleTtl, hdd, ht]
        rw [if_neg hrem]
        exact this

/-- C2 witness: a key expiring at 5000 ms queried at 2000 ms. -/
theorem c2_simple_ttl_trichotomy_witness :
    (simpleTtl c2WitnessState "k" 2000).1 = jsCeilDiv1000 (5000 - 2000) ∧
    0 < (simpleTtl c2WitnessState "k" 2000).1 :=
  (c2_simple_ttl_trichotomy c2WitnessState "k" 2000).2.2.2 5000
    (by decide) (by rfl) (by decide)

/-- C3 counterexample: a tombstone merged by `compactLevel0` is dropped
from the output even though the output level is 1, not the bottom level
6; the claim requires it to be retained at every non-bottom level. -/
theorem c3_tombstone_dropped_below_bottom_level :
    (compactLevel0 [c3Input] false 10).entries = [] ∧
    (compactLevel0 [c3Input] false 10).level = 1 ∧ (1 : Nat) ≠ 6 :=
  ⟨rfl, rfl, by decide⟩

/-- C3 (amended): both compaction merge routines drop tombstones
unconditionally — the output of a merge never contains a tombstone,
whatever the output level. -/
theorem c3_merge_drops_tombstones_at_every_level (tables : List SSTable)
    (now : Int) :
    (∀ e ∈ mergeSSTablesWithOverlap tables now, e.value.isSome = true) ∧
    (∀ e ∈ mergeSSTables tables now, e.value.isSome = true) := by
  constructor
  · intro e he
    simp only [mergeSSTablesWithOverlap] at he
    rw [List.Perm.mem_iff (List.perm_insertionSort _ _)] at he
    obtain ⟨p, _, hfp⟩ := List.mem_filterMap.mp he
    exact (mergeFilter_eq_some hfp).2
  · intro e he
    exact kWayMergeAux_no_tombstone now _ _ e he

/-- C3 witness: a live entry does survive an overlap merge. -/
theorem c3_merge_drops_tombstones_at_every_level_witness :
    c3Live ∈ mergeSSTablesWithOverlap [c3LiveTable] 10 ∧
    c3Live.value.isSome = true :=
  ⟨by decide,
    (c3_merge_drops_tombstones_at_every_level [c3LiveTable] 10).1 c3Live
      (by decide)⟩

/-- C4 counterexample: two inputs hold the same key with equal
`created_at` timestamps and versions 1 and 2; the merge keeps the
first-processed entry with version 1, not the largest version as the
claim's tie-break requires. -/
theorem c4_equal_timestamp_keeps_first_not_max_version :
    mergeSSTablesWithOverlap [c4t1, c4t2] 6 = [c4e1] ∧
    c4e1.version = 1 ∧ c4e2.version = 2 ∧
    c4e1.timestamp = c4e2.timestamp ∧ c4e1.key = c4e2.key :=
  ⟨rfl, rfl, rfl, rfl, rfl⟩

/-- C4 (amended): for every key in the output of
`mergeSSTablesWithOverlap` exactly one entry is kept (output keys are
unique); it is one of the input entries and carries the maximum
`created_at` among all input entries for that key; a tie on `created_at`
is broken in favour of the first-processed input, never by version. -/
theorem c4_merge_keeps_max_timestamp (tables : List SSTable) (now : Int) :
    (∀ e ∈ mergeSSTablesWithOverlap tables now,
      e ∈ allInputEntries tables ∧
      ∀ e' ∈ allInputEntries tables, e'.key = e.key →
        e'.timestamp ≤ e.timestamp) ∧
    ((mergeSSTablesWithOverlap tables now).map Entry.key).Nodup := by
  obtain ⟨hnd, hbind⟩ :=
    foldl_updateLatest_inv (allInputEntries tables) [] []
      (by simp) (by simp) (by simp)
  rw [List.nil_append] at hbind
  constructor
  · intro e he
    simp only [mergeSSTablesWithOverlap] at he
    rw [List.Perm.mem_iff (List.perm_insertionSort _ _)] at he
    obtain ⟨p, hp, hfp⟩ := List.mem_filterMap.mp he
    obtain ⟨rfl, _⟩ := mergeFilter_eq_some hfp
    obtain ⟨hkey, hmem, hbound⟩ := hbind p hp
    refine ⟨hmem, ?_⟩
    intro e' he' hke
    exact hbound e' he' (by rw [hke, hkey])
  · simp only [mergeSSTablesWithOverlap]
    have hf : ∀ p ∈ (allInputEntries tables).foldl updateLatest ([] : JsMap Entry),
        ∀ e, (if p.2.value.isNone then none
          else if p.2.isExpired now then none else some p.2) = some e →
          e.key = p.1 := by
      intro p hp e hfp
      obtain ⟨rfl, _⟩ := mergeFilter_eq_some hfp
      exact (hbind p hp).1
    have hsub := filterMap_keys_sublist
      (fun p => if p.2.value.isNone then none
        else if p.2.isExpired now then none else some p.2)
      ((allInputEntries tables).foldl updateLatest []) hf
    have hndkeys := hsub.nodup hnd
    have hpermmap :=
      (List.perm_insertionSort (fun a b : Entry => a.key ≤ b.key)
        (((allInputEntries tables).foldl updateLatest []).filterMap
          (fun p => if p.2.value.isNone then none
            else if p.2.isExpired now then none else some p.2))).map Entry.key
    exact (List.Perm.nodup_iff hpermmap).mpr hndkeys

/-- C4 witness: in the tie scenario the kept entry dominates the other
input's timestamp. -/
theorem c4_merge_keeps_max_timestamp_witness :
    c4e2.timestamp ≤ c4e1.timestamp :=
  ((c4_merge_keeps_max_timestamp [c4t1, c4t2] 6).1 c4e1 (by decide)).2 c4e2
    (by decide) rfl

/-- C5 counterexample: `SimpleStorage.keys` builds its regex without
escaping and without `^...$` anchors, so the metacharacter-free pattern
"a" matches the key "ab" — a proper superstring — contradicting the
claim that such a pattern matches only the exactly equal key. -/
theorem c5_simple_keys_matches_substring :
    (simpleKeys c5State (some "a") 2).1 = ["ab"] ∧ ("a" : String) ≠ "ab" :=
  ⟨rfl, by decide⟩

/-- C5 (amended): the matcher of `Memtable.patternToRegex` (escaped and
anchored) does match a metacharacter-free pattern against exactly the
equal key; `SimpleStorage.keys`, by contrast, matches it against any key
containing the pattern as a substring. -/
theorem c5_anchored_literal_pattern_matches_only_equal (p k : String)
    (h : ∀ c ∈ p.toList, c ≠ '*' ∧ c ≠ '?') :
    anchoredGlobTest p k = true ↔ k = p := by
  unfold anchoredGlobTest
  rw [compileAnchored_eq_lits h, globMatch_lits]
  constructor
  · intro h'
    exact String.ext h'
  · intro h'
    rw [h']

/-- C5 witness: the literal pattern "ab" matches the key "ab". -/
theorem c5_anchored_literal_pattern_matches_only_equal_witness :
    anchoredGlobTest "ab" "ab" = true :=
  (c5_anchored_literal_pattern_matches_only_equal "ab" "ab" (by decide)).mpr rfl

/-- C6 counterexample: SET with the non-positive ttl 0 does not fail
with a validation error — it succeeds, stores the value without any
expiry, and the value is still served arbitrarily far in the future. -/
theorem c6_set_zero_ttl_accepted_and_stored :
    exceptIsOk (snapSet SimpleState.empty "k" (.str "v") (some 0) 100) = true ∧
    (simpleGet (simpleSet SimpleState.empty "k" (.str "v") (some 0) 100) "k"
      999999999).1 = some (.str "v") :=
  ⟨rfl, rfl⟩

/-- C6 (amended): SET performs no ttl validation at all — it succeeds
for every supplied ttl; a ttl of 0 is falsy and is treated as "no
expiry", so the value is stored and served at any later time; only the
client's EXPIRE command rejects a non-positive ttl. -/
theorem c6_set_performs_no_ttl_validation (st : SimpleState) (k : String)
    (v : Val) (ttl : Option Int) (t0 now t : Int) :
    exceptIsOk (snapSet st k v ttl t0) = true ∧
    (simpleGet (simpleSet SimpleState.empty k v (some 0) t0) k now).1 = some v ∧
    (exceptIsOk (snapExpire st k t now) = false ↔ t ≤ 0) := by
  refine ⟨rfl, ?_, ?_⟩
  · simp [simpleSet, simpleGet, JsMap.find, JsMap.setk, jsAbsTtl]
  · unfold snapExpire
    by_cases ht : t ≤ 0
    · simp [ht, exceptIsOk]
    · simp [ht, exceptIsOk]

/-- C7: `StorageEngine.info` computes `totalEntries` from a filter
`!entry.value === null` that compares a boolean against `null` — it
never holds, its own `// Not deleted` comment notwithstanding — and
memtable keys are never collected at all.  On a state with one live run
key and one live memtable key, `totalEntries` is 0 while the
specification's count of distinct live keys is 2. -/
theorem c7_info_total_entries_is_zero :
    engineInfoTotalEntries c7State = 0 ∧ specTotalLiveKeys c7State 3 = 2 :=
  ⟨rfl, rfl⟩

/-- C8 counterexample: EXPIRE with the non-positive ttl -5 is truthy in
JS (`!args.ttl` is false), so it passes the dispatcher's validation,
executes, and appends an EXPIRE record to the WAL — the claim requires
a validation error with no state change. -/
theorem c8_negative_ttl_expire_passes_validation_and_mutates_wal :
    isValidationErr
      (executeCommand .EXPIRE c8NegArgs (EngineState.new 64 true) 0).1 = false ∧
    (executeCommand .EXPIRE c8NegArgs (EngineState.new 64 true) 0).2.wal ≠
      (EngineState.new 64 true).wal :=
  ⟨rfl, by decide⟩

/-- C8 (amended): every command that fails the dispatcher's implemented
validation — falsy key where one is required, missing value for SET,
falsy (missing or zero, but not negative) ttl for EXPIRE, or a command
outside the switch — returns a validation error and leaves the engine
state exactly as it was. -/
theorem c8_failed_validation_returns_error_without_mutation
    (cmd : CommandType) (args : Args) (st : EngineState) (now : Int)
    (h : validationFails cmd args = true) :
    isValidationErr (executeCommand cmd args st now).1 = true ∧
    (executeCommand cmd args st now).2 = st := by
  cases cmd with
  | SET =>
    simp only [validationFails] at h
    simp only [executeCommand]
    rw [if_pos h]
    exact ⟨rfl, rfl⟩
  | GET =>
    simp only [validationFails] at h
    simp only [executeCommand]
    rw [if_pos h]
    exact ⟨rfl, rfl⟩
  | DEL =>
    simp only [validationFails] at h
    simp only [executeCommand]
    rw [if_pos h]
    exact ⟨rfl, rfl⟩
  | EXISTS =>
    simp only [validationFails] at h
    simp only [executeCommand]
    rw [if_pos h]
    exact ⟨rfl, rfl⟩
  | EXPIRE =>
    simp only [validationFails] at h
    simp only [executeCommand]
    rw [if_pos h]
    exact ⟨rfl, rfl⟩
  | TTL =>
    simp only [validationFails] at h
    simp only [executeCommand]
    rw [if_pos h]
    exact ⟨rfl, rfl⟩
  | INCR =>
    simp only [validationFails] at h
    simp only [executeCommand]
    rw [if_pos h]
    exact ⟨rfl, rfl⟩
  | DECR =>
    simp only [validationFails] at h
    simp only [executeCommand]
    rw [if_pos h]
    exact ⟨rfl, rfl⟩
  | KEYS => simp [validationFails] at h
  | FLUSHALL => simp [validationFails] at h
  | INFO => simp [validationFails] at h
  | MGET => exact ⟨rfl, rfl⟩
  | MSET => exact ⟨rfl, rfl⟩

/-- C8 witness: EXPIRE with ttl 0 (falsy) is rejected with no state
change. -/
theorem c8_failed_validation_witness :
    isValidationErr
      (executeCommand .EXPIRE c8ZeroArgs (EngineState.new 64 true) 0).1 = true ∧
    (executeCommand .EXPIRE c8ZeroArgs (EngineState.new 64 true) 0).2 =
      EngineState.new 64 true :=
  c8_failed_validation_returns_error_without_mutation .EXPIRE c8ZeroArgs
    (EngineState.new 64 true) 0 (by rfl)

/-- C9: the bloom filter has no false negatives: after adding any finite
sequence of keys to a fresh filter, `contains` answers true for every
added key (so a `false` answer is authoritative).  The positivity
hypothesis on the bit count marks the domain on which the bit-array
model is faithful: filters built by the code always have
`size = 10 * n > 0` (for `size = 0` the JS code indexes with `NaN`). -/
theorem c9_bloom_no_false_negatives (m numHashes : Nat) (keys : List String)
    (k : String) (hm : 0 < m) (hk : k ∈ keys) :
    (keys.foldl BloomFilter.add (BloomFilter.new m numHashes)).contains k
      = true :=
  foldl_add_contains keys _ k hk

/-- C9 witness: a two-key filter answers true for an added key. -/
theorem c9_bloom_no_false_negatives_witness :
    0 < 160 ∧
    ((["a", "bb"] : List String).foldl BloomFilter.add
      (BloomFilter.new 160 3)).contains "a" = true :=
  ⟨by decide,
    c9_bloom_no_false_negatives 160 3 ["a", "bb"] "a" (by decide) (by decide)⟩

/-- C10: overwriting a key that was written with a TTL by a SET without
any TTL leaves the old recorded expiry in `ttlData`; once it passes, GET
returns absent and deletes the key, discarding the newer value written
without a TTL. -/
theorem c10_overwrite_without_ttl_keeps_old_expiry (k : String) (v v' : Val)
    (ttl t0 t1 now : Int) (hpos : 0 < ttl) (hnow : t0 + ttl < now) :
    (simpleGet (simpleSet (simpleSet SimpleState.empty k v (some ttl) t0) k v'
      none t1) k now).1 = none ∧
    (simpleGet (simpleSet (simpleSet SimpleState.empty k v (some ttl) t0) k v'
      none t1) k now).2.data.find k = none := by
  have hne : ttl ≠ 0 := by omega
  constructor
  · simp [simpleSet, simpleGet, JsMap.find, JsMap.setk, JsMap.del, jsAbsTtl,
      hne, hnow]
  · simp [simpleSet, simpleGet, JsMap.find, JsMap.setk, JsMap.del, jsAbsTtl,
      hne, hnow]

/-- C10 witness: set with ttl 100 at t=0, overwrite without ttl at t=50,
read at t=200. -/
theorem c10_overwrite_without_ttl_keeps_old_expiry_witness :
    (simpleGet (simpleSet (simpleSet SimpleState.empty "k" (.str "v")
      (some 100) 0) "k" (.str "w") none 50) "k" 200).1 = none ∧
    (simpleGet (simpleSet (simpleSet SimpleState.empty "k" (.str "v")
      (some 100) 0) "k" (.str "w") none 50) "k" 200).2.data.find "k" = none :=
  c10_overwrite_without_ttl_keeps_old_expiry "k" (.str "v") (.str "w") 100 0 50
    200 (by decide) (by decide)

end SnapDB
